import Mathlib

/-!
Shallow embedding of the Scheduled Delivery Engine of the SlackConnect
backend (src/services/scheduler.ts = unnamed part_004, the /messages routes
= unnamed part_002, and src/services/SlackService.ts), against which the
specification's claims are settled.

Modelling choices:
* Instants (`Date`) are naturals (milliseconds); ids are naturals.
* The Mongo collection of `ScheduledMessageModel` is an association list
  `Store := List (Nat × ScheduledMessage)`; `findById` is first-occurrence
  lookup and `save` replaces the first occurrence (Mongo `_id` is unique).
* Storage itself never fails (storage-layer faults are outside the claims);
  the outcomes of the two external calls made while sending — token
  resolution (`ensureValidToken`) and the Slack post (`sendMessage`) — are
  supplied by an environment `env : Nat → SendOutcome`, one outcome per
  record id, covering every control path of the source's try/catch blocks.
* `sendScheduledMessage` additionally returns the list of external send
  calls it performed; each entry records the status the *store* reports for
  the record at the moment the network call is issued (the in-memory
  document mutation of the source is visible in the local variable only,
  exactly as in the TypeScript, where `message.status = 'sent'` precedes
  `message.save()`).
-/

namespace SlackConnect

/-- The `status` enum of the `ScheduledMessage` schema. -/
inductive Status where
  | pending
  | sent
  | failed
  | cancelled
deriving DecidableEq, Repr

/-- A document of the `ScheduledMessageModel` collection (models/ScheduledMessage.ts),
with the fields the scheduler reads or writes. -/
structure ScheduledMessage where
  userId : Nat
  teamId : Nat
  channelId : Nat
  channelName : String
  message : String
  scheduledFor : Nat
  status : Status
  createdAt : Nat
  sentAt : Option Nat
  error : Option String
deriving DecidableEq, Repr

/-- The Mongo collection, keyed by `_id`. -/
abbrev Store := List (Nat × ScheduledMessage)

/-- `ScheduledMessageModel.findById`: first occurrence of the id. -/
def findById : Store → Nat → Option ScheduledMessage
  | [], _ => none
  | p :: l, i => if p.1 = i then some p.2 else findById l i

/-- `document.save()`: replace the first occurrence of the id (Mongo `_id`s
are unique; on an absent id nothing is written). -/
def save : Store → Nat → ScheduledMessage → Store
  | [], _, _ => []
  | p :: l, i, r => if p.1 = i then (i, r) :: l else p :: save l i r

/-- The status the store reports for an id. -/
def statusOf (st : Store) (i : Nat) : Option Status :=
  (findById st i).map ScheduledMessage.status

/-- The `sentAt` the store reports for an id. -/
def sentAtOf (st : Store) (i : Nat) : Option Nat :=
  (findById st i).bind ScheduledMessage.sentAt

/-- Outcome of the external calls made for one record inside
`sendScheduledMessage`: `ensureValidToken` may throw before any send is
issued (`tokenThrow`); otherwise the Slack post happens and either reports
`ok` (`sendOk`), reports not-ok (`sendFalse`, which the source turns into
`throw new Error('Failed to send message to Slack')`), or throws
(`sendThrow`). -/
inductive SendOutcome where
  | tokenThrow (msg : String)
  | sendOk
  | sendFalse
  | sendThrow (msg : String)

/-- `MessageScheduler.sendScheduledMessage` (scheduler.ts lines 62-105).
Returns the updated store together with the list of external send calls
performed; each entry is the store-visible status of the record at the
moment the call is issued. Mirrors the source: load by id; return if absent
or not `pending`; set `status = 'sent'` and `sentAt` on the in-memory
document; resolve the token and post the message; `save()` on success, or
set `status = 'failed'` with the error message and `save()` in the catch. -/
def sendScheduledMessage (env : Nat → SendOutcome) (now : Nat) (i : Nat)
    (st : Store) : Store × List (Option Status) :=
  match findById st i with
  | none => (st, [])
  | some r =>
    if r.status ≠ Status.pending then (st, [])
    else
      let r1 := { r with status := Status.sent, sentAt := some now }
      match env i with
      | SendOutcome.tokenThrow msg =>
          (save st i { r1 with status := Status.failed, error := some msg }, [])
      | SendOutcome.sendOk =>
          (save st i r1, [statusOf st i])
      | SendOutcome.sendFalse =>
          let r2 := { r1 with status := Status.failed, error := some "Failed to send message to Slack" }
          (save st i r2, [statusOf st i])
      | SendOutcome.sendThrow msg =>
          (save st i { r1 with status := Status.failed, error := some msg },
           [statusOf st i])

/-- Insertion step of the ascending-`scheduledFor` sort used by the poller
query (`.sort(\x7b scheduledFor: 1 \x7d)`). -/
def insertDue (p : Nat × ScheduledMessage) :
    List (Nat × ScheduledMessage) → List (Nat × ScheduledMessage)
  | [] => [p]
  | q :: l =>
      if p.2.scheduledFor ≤ q.2.scheduledFor then p :: q :: l
      else q :: insertDue p l

/-- Sort by `scheduledFor` ascending. -/
def sortByDue : List (Nat × ScheduledMessage) → List (Nat × ScheduledMessage)
  | [] => []
  | p :: l => insertDue p (sortByDue l)

/-- The poller query: pending records due at or before `now`, earliest first. -/
def dueMessages (now : Nat) (st : Store) : List (Nat × ScheduledMessage) :=
  sortByDue (st.filter fun p =>
    decide (p.2.scheduledFor ≤ now ∧ p.2.status = Status.pending))

/-- `MessageScheduler.processScheduledMessages` (scheduler.ts lines 35-57):
one poller tick. Queries the due pending records, then awaits
`sendScheduledMessage` on each id in order, threading the store; the send
calls of the tick are concatenated. -/
def processScheduledMessages (env : Nat → SendOutcome) (now : Nat)
    (st : Store) : Store × List (Option Status) :=
  (dueMessages now st).foldl
    (fun acc p =>
      let r := sendScheduledMessage env now p.1 acc.1
      (r.1, acc.2 ++ r.2))
    (st, [])

/-- A fresh Mongo `_id` for an insert: strictly larger than every id in the
store, hence never present in it. -/
def freshId (st : Store) : Nat :=
  (st.map Prod.fst).foldr max 0 + 1

/-- `MessageScheduler.scheduleMessage` (scheduler.ts lines 110-144): rejects
a `scheduledFor` at or before `now` with the source's error string; otherwise
inserts a new `pending` document and returns its id. -/
def scheduleMessage (now userId teamId channelId : Nat)
    (channelName message : String) (scheduledFor : Nat) (st : Store) :
    Except String (Nat × Store) :=
  if scheduledFor ≤ now then
    Except.error "Scheduled time must be in the future"
  else
    let i := freshId st
    let r : ScheduledMessage :=
      { userId := userId, teamId := teamId, channelId := channelId,
        channelName := channelName, message := message,
        scheduledFor := scheduledFor, status := Status.pending,
        createdAt := now, sentAt := none, error := none }
    Except.ok (i, st ++ [(i, r)])

/-- `MessageScheduler.cancelScheduledMessage` (scheduler.ts lines 149-171):
`findOne` on id, owner and `status: 'pending'`; on a match set the status to
`cancelled` and save, returning true; otherwise return false. -/
def cancelScheduledMessage (i userId : Nat) (st : Store) : Bool × Store :=
  match findById st i with
  | none => (false, st)
  | some r =>
    if r.userId = userId ∧ r.status = Status.pending then
      (true, save st i { r with status := Status.cancelled })
    else
      (false, st)

/-- The projection `getUserScheduledMessages` maps each document through. -/
structure MessageView where
  id : Nat
  channelId : Nat
  channelName : String
  message : String
  scheduledFor : Nat
  status : Status
  createdAt : Nat
  sentAt : Option Nat
  error : Option String
deriving DecidableEq, Repr

/-- Insertion step of the descending-`scheduledFor` sort of the listing
query (`.sort(\x7b scheduledFor: -1 \x7d)`). -/
def insertDueDesc (p : Nat × ScheduledMessage) :
    List (Nat × ScheduledMessage) → List (Nat × ScheduledMessage)
  | [] => [p]
  | q :: l =>
      if q.2.scheduledFor ≤ p.2.scheduledFor then p :: q :: l
      else q :: insertDueDesc p l

/-- Sort by `scheduledFor` descending. -/
def sortByDueDesc : List (Nat × ScheduledMessage) → List (Nat × ScheduledMessage)
  | [] => []
  | p :: l => insertDueDesc p (sortByDueDesc l)

/-- `MessageScheduler.getUserScheduledMessages` (scheduler.ts lines 176-198):
the user's documents whose status is `pending`, `sent` or `failed` (the
`$in` filter of the query), newest `scheduledFor` first, projected to the
view shape. -/
def getUserScheduledMessages (userId : Nat) (st : Store) : List MessageView :=
  (sortByDueDesc (st.filter fun p =>
      decide (p.2.userId = userId ∧
        (p.2.status = Status.pending ∨ p.2.status = Status.sent ∨
         p.2.status = Status.failed)))).map
    fun p =>
      { id := p.1, channelId := p.2.channelId, channelName := p.2.channelName,
        message := p.2.message, scheduledFor := p.2.scheduledFor,
        status := p.2.status, createdAt := p.2.createdAt,
        sentAt := p.2.sentAt, error := p.2.error }

/-- The response shape of `GET /messages/stats`. -/
structure Stats where
  total : Nat
  pending : Nat
  sent : Nat
  failed : Nat
  cancelled : Nat
deriving DecidableEq, Repr

/-- The `GET /messages/stats` handler (routes part_002 lines 214-240):
aggregates over `getUserScheduledMessages` with one `filter(...).length`
per status. -/
def getStats (userId : Nat) (st : Store) : Stats :=
  let messages := getUserScheduledMessages userId st
  { total := messages.length,
    pending := (messages.filter fun m => decide (m.status = Status.pending)).length,
    sent := (messages.filter fun m => decide (m.status = Status.sent)).length,
    failed := (messages.filter fun m => decide (m.status = Status.failed)).length,
    cancelled := (messages.filter fun m => decide (m.status = Status.cancelled)).length }

/-- One engine operation on the delivery record store: intake, cancel,
out-of-band force-send, or a whole poller tick. Each carries the clock it
runs at; the sending ones carry the external-call environment. -/
inductive Op where
  | schedule (now userId teamId channelId : Nat) (channelName message : String)
      (scheduledFor : Nat)
  | cancel (i userId : Nat)
  | sendNow (env : Nat → SendOutcome) (now i : Nat)
  | tick (env : Nat → SendOutcome) (now : Nat)

/-- The store after one engine operation (a failed intake leaves it unchanged). -/
def applyOp (op : Op) (st : Store) : Store :=
  match op with
  | Op.schedule now userId teamId channelId channelName message scheduledFor =>
      match scheduleMessage now userId teamId channelId channelName message scheduledFor st with
      | Except.ok (_, st') => st'
      | Except.error _ => st
  | Op.cancel i userId => (cancelScheduledMessage i userId st).2
  | Op.sendNow env now i => (sendScheduledMessage env now i st).1
  | Op.tick env now => (processScheduledMessages env now st).1

/-- The store after a sequence of engine operations. -/
def applyOps (ops : List Op) (st : Store) : Store :=
  ops.foldl (fun s op => applyOp op s) st

/-- A document of the `SlackUserModel` collection (models/SlackUser.ts),
with the fields `ensureValidToken` reads or writes. -/
structure SlackUser where
  accessToken : String
  refreshToken : Option String
  tokenExpiresAt : Option Nat
deriving DecidableEq, Repr

/-- The Slack-user collection, keyed by the user id of `findOne(\x7b id \x7d)`. -/
abbrev UserStore := List (Nat × SlackUser)

/-- `SlackUserModel.findOne(\x7b id \x7d)`: first occurrence of the id. -/
def findUser : UserStore → Nat → Option SlackUser
  | [], _ => none
  | p :: l, i => if p.1 = i then some p.2 else findUser l i

/-- `user.save()`: replace the first occurrence of the id. -/
def saveUser : UserStore → Nat → SlackUser → UserStore
  | [], _, _ => []
  | p :: l, i, u => if p.1 = i then (i, u) :: l else p :: saveUser l i u

/-- The body Slack's refresh endpoint returns on success
(`refreshAccessToken`): a new access token, optionally a rotated refresh
token and an `expires_in` in seconds. -/
structure SlackRefreshResponse where
  access_token : String
  refresh_token : Option String
  expires_in : Option Nat
deriving DecidableEq, Repr

/-- `SlackService.ensureValidToken` (SlackService.ts lines 178-216). The
external refresh endpoint is the argument `refresh`; the result is the
token (or the propagated error), the user store after the call, and how
many refresh calls were made. Mirrors the source: absent user throws
`'User not found'`; a `tokenExpiresAt` at or before `now` with no
`refreshToken` throws `'Token expired and no refresh token available'`;
with one, the refresh response's `access_token` (and, when present, its
`refresh_token` and `expires_in`, the latter as `now + expires_in * 1000`)
are written to the user, which is saved before the new token is returned;
an absent or future `tokenExpiresAt` returns the stored token with no
refresh call and no store write. -/
def ensureValidToken (refresh : String → Except String SlackRefreshResponse)
    (now uid : Nat) (us : UserStore) : Except String String × UserStore × Nat :=
  match findUser us uid with
  | none => (Except.error "User not found", us, 0)
  | some u =>
    match u.tokenExpiresAt with
    | some exp =>
      if exp ≤ now then
        match u.refreshToken with
        | none => (Except.error "Token expired and no refresh token available", us, 0)
        | some rt =>
          match refresh rt with
          | Except.error e => (Except.error e, us, 1)
          | Except.ok resp =>
            let u1 := { u with accessToken := resp.access_token }
            let u2 :=
              match resp.refresh_token with
              | some r => { u1 with refreshToken := some r }
              | none => u1
            let u3 :=
              match resp.expires_in with
              | some s => { u2 with tokenExpiresAt := some (now + s * 1000) }
              | none => u2
            (Except.ok resp.access_token, saveUser us uid u3, 1)
      else (Except.ok u.accessToken, us, 0)
    | none => (Except.ok u.accessToken, us, 0)

/-- A concrete scheduled message for witnesses and counterexamples. -/
def sampleMsg (uid schedFor : Nat) (s : Status) (sentAt : Option Nat) :
    ScheduledMessage :=
  { userId := uid, teamId := 0, channelId := 3, channelName := "general",
    message := "hello", scheduledFor := schedFor, status := s,
    createdAt := 0, sentAt := sentAt, error := none }

/-- The view of `sampleMsg 7 50 pending none` under id 1. -/
def sampleView : MessageView :=
  { id := 1, channelId := 3, channelName := "general", message := "hello",
    scheduledFor := 50, status := Status.pending, createdAt := 0,
    sentAt := none, error := none }

/-- The `sentAt`/`status` coupling as the code maintains it: `sentAt` is set
exactly on the records whose status is `sent` or `failed` (a failed send
keeps the `sentAt` stamped before the attempt). -/
def SentAtInv (st : Store) : Prop :=
  ∀ p ∈ st, (p.2.sentAt ≠ none ↔
    p.2.status = Status.sent ∨ p.2.status = Status.failed)

/-- A store of one principal with 3 pending, 2 sent, 1 failed and 1
cancelled records (the spec's stats example). -/
def statsExampleStore : Store :=
  [(1, sampleMsg 7 10 Status.pending none),
   (2, sampleMsg 7 20 Status.pending none),
   (3, sampleMsg 7 30 Status.pending none),
   (4, sampleMsg 7 40 Status.sent (some 41)),
   (5, sampleMsg 7 45 Status.sent (some 46)),
   (6, sampleMsg 7 60 Status.failed (some 61)),
   (7, sampleMsg 7 70 Status.cancelled none)]

/-- Count of a principal's records in a given status, straight off the store. -/
def countUser (uid : Nat) (s : Status) (st : Store) : Nat :=
  st.countP fun p => decide (p.2.userId = uid ∧ p.2.status = s)

theorem findById_save_self (st : Store) (i : Nat) (r r0 : ScheduledMessage)
    (h : findById st i = some r0) : findById (save st i r) i = some r := by
  induction st with
  | nil => simp [findById] at h
  | cons p l ih =>
    by_cases hp : p.1 = i
    · simp [findById, save, hp]
    · simp [findById, save, hp] at h ⊢
      exact ih h

theorem findById_save_ne (st : Store) (i j : Nat) (r : ScheduledMessage)
    (h : j ≠ i) : findById (save st i r) j = findById st j := by
  induction st with
  | nil => simp [save]
  | cons p l ih =>
    by_cases hp : p.1 = i
    · simp [findById, save, hp, Ne.symm h]
    · simp [findById, save, hp]
      split
      · rfl
      · exact ih

/-- Sending an absent id changes nothing and performs no external call. -/
theorem send_of_none (env : Nat → SendOutcome) (now i : Nat) (st : Store)
    (h : findById st i = none) :
    sendScheduledMessage env now i st = (st, []) := by
  simp [sendScheduledMessage, h]

/-- Sending a non-pending record changes nothing and performs no external
call (the early return of the source). -/
theorem send_of_nonpending (env : Nat → SendOutcome) (now i : Nat) (st : Store)
    (r : ScheduledMessage) (h : findById st i = some r)
    (hs : r.status ≠ Status.pending) :
    sendScheduledMessage env now i st = (st, []) := by
  simp [sendScheduledMessage, h, hs]

/-- Closed form of a send on a pending record. -/
theorem send_pending_eq (env : Nat → SendOutcome) (now i : Nat) (st : Store)
    (r : ScheduledMessage) (h : findById st i = some r)
    (hs : r.status = Status.pending) :
    sendScheduledMessage env now i st =
      match env i with
      | SendOutcome.tokenThrow msg =>
          (save st i { r with status := Status.failed, sentAt := some now, error := some msg }, [])
      | SendOutcome.sendOk =>
          (save st i { r with status := Status.sent, sentAt := some now }, [statusOf st i])
      | SendOutcome.sendFalse =>
          (save st i { r with status := Status.failed, sentAt := some now, error := some "Failed to send message to Slack" }, [statusOf st i])
      | SendOutcome.sendThrow msg =>
          (save st i { r with status := Status.failed, sentAt := some now, error := some msg }, [statusOf st i]) := by
  unfold sendScheduledMessage
  rw [h]
  simp only [hs]
  rw [if_neg (by simp)]

/-- Sending a pending record leaves it `sent` or `failed` in the store,
with `sentAt` stamped. -/
theorem send_self_pending (env : Nat → SendOutcome) (now i : Nat) (st : Store)
    (r : ScheduledMessage) (h : findById st i = some r)
    (hs : r.status = Status.pending) :
    ∃ r', findById (sendScheduledMessage env now i st).1 i = some r' ∧
      (r'.status = Status.sent ∨ r'.status = Status.failed) ∧
      r'.sentAt = some now := by
  rw [send_pending_eq env now i st r h hs]
  cases env i with
  | tokenThrow msg => exact ⟨_, findById_save_self st i _ r h, Or.inr rfl, rfl⟩
  | sendOk => exact ⟨_, findById_save_self st i _ r h, Or.inl rfl, rfl⟩
  | sendFalse => exact ⟨_, findById_save_self st i _ r h, Or.inr rfl, rfl⟩
  | sendThrow msg => exact ⟨_, findById_save_self st i _ r h, Or.inr rfl, rfl⟩

/-- A send touches no record other than its own id. -/
theorem send_other (env : Nat → SendOutcome) (now i j : Nat) (st : Store)
    (h : j ≠ i) :
    findById (sendScheduledMessage env now i st).1 j = findById st j := by
  unfold sendScheduledMessage
  cases hf : findById st i with
  | none => rfl
  | some r =>
    by_cases hs : r.status = Status.pending
    · simp only [hs]
      cases env i <;> simp [findById_save_ne st i j _ h]
    · simp [hs]

/-- One call to `sendScheduledMessage` issues at most one external send. -/
theorem send_calls_le_one (env : Nat → SendOutcome) (now i : Nat) (st : Store) :
    (sendScheduledMessage env now i st).2.length ≤ 1 := by
  unfold sendScheduledMessage
  cases hf : findById st i with
  | none => simp
  | some r =>
    by_cases hs : r.status = Status.pending
    · simp only [hs]
      cases env i <;> simp
    · simp [hs]

/-- `insertDue` permutes consing. -/
theorem insertDue_perm (p : Nat × ScheduledMessage) (l : List (Nat × ScheduledMessage)) :
    List.Perm (insertDue p l) (p :: l) := by
  induction l with
  | nil => simp [insertDue]
  | cons q l ih =>
    simp only [insertDue]
    split
    · exact List.Perm.refl _
    · exact List.Perm.trans (List.Perm.cons q ih) (List.Perm.swap p q l)

/-- `sortByDue` permutes its input. -/
theorem sortByDue_perm (l : List (Nat × ScheduledMessage)) :
    List.Perm (sortByDue l) l := by
  induction l with
  | nil => exact List.Perm.refl _
  | cons p l ih =>
    exact List.Perm.trans (insertDue_perm p (sortByDue l)) (List.Perm.cons p ih)

/-- `insertDueDesc` permutes consing. -/
theorem insertDueDesc_perm (p : Nat × ScheduledMessage) (l : List (Nat × ScheduledMessage)) :
    List.Perm (insertDueDesc p l) (p :: l) := by
  induction l with
  | nil => simp [insertDueDesc]
  | cons q l ih =>
    simp only [insertDueDesc]
    split
    · exact List.Perm.refl _
    · exact List.Perm.trans (List.Perm.cons q ih) (List.Perm.swap p q l)

/-- `sortByDueDesc` permutes its input. -/
theorem sortByDueDesc_perm (l : List (Nat × ScheduledMessage)) :
    List.Perm (sortByDueDesc l) l := by
  induction l with
  | nil => exact List.Perm.refl _
  | cons p l ih =>
    exact List.Perm.trans (insertDueDesc_perm p (sortByDueDesc l)) (List.Perm.cons p ih)

/-- Membership in the poller query. -/
theorem mem_dueMessages (now : Nat) (st : Store) (p : Nat × ScheduledMessage) :
    p ∈ dueMessages now st ↔
      p ∈ st ∧ p.2.scheduledFor ≤ now ∧ p.2.status = Status.pending := by
  unfold dueMessages
  rw [(sortByDue_perm _).mem_iff, List.mem_filter]
  simp

/-- A successful first-occurrence lookup is a membership. -/
theorem findById_mem (st : Store) (i : Nat) (r : ScheduledMessage)
    (h : findById st i = some r) : (i, r) ∈ st := by
  induction st with
  | nil => simp [findById] at h
  | cons p l ih =>
    obtain ⟨a, b⟩ := p
    by_cases hp : a = i
    · subst hp
      simp only [findById, if_pos, Option.some.injEq] at h
      subst h
      exact List.mem_cons_self _ _
    · simp only [findById, hp, ite_false] at h
      exact List.mem_cons_of_mem _ (ih h)

/-- The store component of a tick is a plain fold of per-record sends. -/
theorem foldPairs_fst (env : Nat → SendOutcome) (now : Nat)
    (ds : List (Nat × ScheduledMessage)) (st : Store) (tr : List (Option Status)) :
    (ds.foldl
      (fun acc p =>
        let r := sendScheduledMessage env now p.1 acc.1
        (r.1, acc.2 ++ r.2)) (st, tr)).1 =
    ds.foldl (fun s p => (sendScheduledMessage env now p.1 s).1) st := by
  induction ds generalizing st tr with
  | nil => rfl
  | cons p l ih => exact ih _ _

/-- The store after a tick, as a plain fold. -/
theorem process_fst (env : Nat → SendOutcome) (now : Nat) (st : Store) :
    (processScheduledMessages env now st).1 =
    (dueMessages now st).foldl (fun s p => (sendScheduledMessage env now p.1 s).1) st := by
  unfold processScheduledMessages
  exact foldPairs_fst env now _ st []

/-- One send keeps every non-pending record exactly as it was. -/
theorem send_preserves_nonpending (env : Nat → SendOutcome) (now i j : Nat)
    (st : Store) (r : ScheduledMessage) (h : findById st j = some r)
    (hs : r.status ≠ Status.pending) :
    findById (sendScheduledMessage env now i st).1 j = some r := by
  by_cases hij : j = i
  · subst hij
    rw [send_of_nonpending env now j st r h hs]
    exact h
  · rw [send_other env now i j st hij]
    exact h

/-- A fold of sends keeps every non-pending record exactly as it was. -/
theorem foldSends_preserves_nonpending (env : Nat → SendOutcome) (now : Nat)
    (ds : List (Nat × ScheduledMessage)) (st : Store) (j : Nat)
    (r : ScheduledMessage) (h : findById st j = some r)
    (hs : r.status ≠ Status.pending) :
    findById (ds.foldl (fun s p => (sendScheduledMessage env now p.1 s).1) st) j = some r := by
  induction ds generalizing st with
  | nil => exact h
  | cons p l ih =>
    exact ih _ (send_preserves_nonpending env now p.1 j st r h hs)

/-- A fold of sends drives every listed pending record to `sent` or `failed`. -/
theorem foldSends_terminal (env : Nat → SendOutcome) (now : Nat)
    (ds : List (Nat × ScheduledMessage)) (st : Store) (i : Nat)
    (r : ScheduledMessage) (hp : r.status = Status.pending) :
    (i, r) ∈ ds → findById st i = some r →
    ∃ r', findById (ds.foldl (fun s p => (sendScheduledMessage env now p.1 s).1) st) i = some r' ∧
      (r'.status = Status.sent ∨ r'.status = Status.failed) := by
  induction ds generalizing st with
  | nil =>
    intro hmem _
    simp at hmem
  | cons p l ih =>
    intro hmem h
    by_cases hpi : p.1 = i
    · obtain ⟨r', hfind, hterm, _⟩ := send_self_pending env now i st r h hp
      have hs' : r'.status ≠ Status.pending := by
        rcases hterm with h1 | h1 <;> simp [h1]
      refine ⟨r', ?_, hterm⟩
      have hpre := foldSends_preserves_nonpending env now l _ i r' hfind hs'
      simpa [hpi] using hpre
    · have hmem' : (i, r) ∈ l := by
        rcases List.mem_cons.mp hmem with h1 | h1
        · exact absurd (congrArg Prod.fst h1.symm) hpi
        · exact h1
      have h' : findById (sendScheduledMessage env now p.1 st).1 i = some r := by
        rw [send_other env now p.1 i st (fun he => hpi he.symm)]
        exact h
      exact ih _ hmem' h'

/-- A member of a list is at most its `foldr max`. -/
theorem le_foldr_max (l : List Nat) (a : Nat) (h : a ∈ l) : a ≤ l.foldr max 0 := by
  induction l with
  | nil => simp at h
  | cons b l ih =>
    rcases List.mem_cons.mp h with h1 | h1
    · subst h1
      exact le_max_left _ _
    · exact le_trans (ih h1) (le_max_right _ _)

/-- A key different from every key of the store is not found. -/
theorem findById_eq_none (st : Store) (i : Nat) (h : ∀ p ∈ st, p.1 ≠ i) :
    findById st i = none := by
  induction st with
  | nil => rfl
  | cons p l ih =>
    simp only [findById, h p (List.mem_cons_self p l), ite_false]
    exact ih fun q hq => h q (List.mem_cons_of_mem p hq)

/-- The fresh id of an insert is not yet in the store. -/
theorem findById_freshId (st : Store) : findById st (freshId st) = none := by
  refine findById_eq_none st _ fun p hp hcontra => ?_
  have hle : p.1 ≤ (st.map Prod.fst).foldr max 0 :=
    le_foldr_max _ _ (List.mem_map_of_mem Prod.fst hp)
  unfold freshId at hcontra
  omega

/-- C1: the spec's claim-then-execute step requires the `sent` status to be
committed to the delivery record store before the external send is issued,
so that a concurrent reader skips the record. The code only mutates the
in-memory document before the send and calls `save()` afterwards: at the
moment the external call is issued, the store still reports `pending` for
the record, and a concurrent force-send reading that in-flight store issues
a second external send for the same record. -/
theorem sendScheduledMessage_store_pending_during_send :
    (sendScheduledMessage (fun _ => SendOutcome.sendOk) 100 1
        [(1, sampleMsg 7 50 Status.pending none)]).2 = [some Status.pending]
    ∧ (sendScheduledMessage (fun _ => SendOutcome.sendOk) 100 1
        [(1, sampleMsg 7 50 Status.pending none)]).2.length +
      (sendScheduledMessage (fun _ => SendOutcome.sendOk) 101 1
        [(1, sampleMsg 7 50 Status.pending none)]).2.length = 2 := by
  constructor
  · rfl
  · rfl

/-- C2: every record that is due (`scheduledFor ≤ now`) and `pending` when a
poller tick runs is `sent` or `failed` after the tick — never left `pending`.
The environment `env` is universally quantified, so any other record's
failure mode (token error, provider rejection, thrown send) cannot prevent
this record's terminal transition: per-record failures are isolated. -/
theorem tick_due_pending_terminal (env : Nat → SendOutcome) (now : Nat)
    (st : Store) (i : Nat) (r : ScheduledMessage)
    (h : findById st i = some r) (hdue : r.scheduledFor ≤ now)
    (hp : r.status = Status.pending) :
    statusOf (processScheduledMessages env now st).1 i = some Status.sent ∨
    statusOf (processScheduledMessages env now st).1 i = some Status.failed := by
  rw [process_fst]
  have hmem : (i, r) ∈ dueMessages now st :=
    (mem_dueMessages now st (i, r)).mpr ⟨findById_mem st i r h, hdue, hp⟩
  obtain ⟨r', hfind, hterm⟩ := foldSends_terminal env now _ st i r hp hmem h
  rcases hterm with h1 | h1
  · left
    simp [statusOf, hfind, h1]
  · right
    simp [statusOf, hfind, h1]

/-- Witness for C2 at a concrete store: one due pending record is `sent`
after the tick. -/
theorem tick_due_pending_terminal_witness :
    statusOf (processScheduledMessages (fun _ => SendOutcome.sendOk) 100
        [(1, sampleMsg 7 50 Status.pending none)]).1 1 = some Status.sent ∨
    statusOf (processScheduledMessages (fun _ => SendOutcome.sendOk) 100
        [(1, sampleMsg 7 50 Status.pending none)]).1 1 = some Status.failed :=
  tick_due_pending_terminal (fun _ => SendOutcome.sendOk) 100
    [(1, sampleMsg 7 50 Status.pending none)] 1 (sampleMsg 7 50 Status.pending none)
    rfl (by decide) rfl

/-- C7: force-send is idempotent. The second sequential call on the same id
performs no external send and leaves the store exactly as the first call
left it, and the two calls together perform at most one external send. -/
theorem force_send_idempotent (env env' : Nat → SendOutcome)
    (now now' i : Nat) (st : Store) :
    (sendScheduledMessage env' now' i (sendScheduledMessage env now i st).1).2 = []
    ∧ (sendScheduledMessage env' now' i (sendScheduledMessage env now i st).1).1 =
        (sendScheduledMessage env now i st).1
    ∧ (sendScheduledMessage env now i st).2.length +
        (sendScheduledMessage env' now' i (sendScheduledMessage env now i st).1).2.length ≤ 1 := by
  cases hf : findById st i with
  | none =>
    have h1 : sendScheduledMessage env now i st = (st, []) := send_of_none env now i st hf
    have h2 : sendScheduledMessage env' now' i st = (st, []) := send_of_none env' now' i st hf
    simp [h1, h2]
  | some r =>
    by_cases hp : r.status = Status.pending
    · obtain ⟨r', hfind, hterm, _⟩ := send_self_pending env now i st r hf hp
      have hs' : r'.status ≠ Status.pending := by
        rcases hterm with h1 | h1 <;> simp [h1]
      have h2 := send_of_nonpending env' now' i _ r' hfind hs'
      refine ⟨by simp [h2], by simp [h2], ?_⟩
      have hle := send_calls_le_one env now i st
      simp [h2]
      omega
    · have h1 := send_of_nonpending env now i st r hf hp
      have h2 := send_of_nonpending env' now' i st r hf hp
      simp [h1, h2]

/-- C8: cancel returns true and marks the record `cancelled` exactly when
the id exists, is owned by the caller and is still `pending`; in every
other case it returns false and leaves the store unchanged; a second cancel
of the same id returns false; and no other record is touched. -/
theorem cancel_contract (i uid : Nat) (st : Store) :
    ((cancelScheduledMessage i uid st).1 = true ↔
      ∃ r, findById st i = some r ∧ r.userId = uid ∧ r.status = Status.pending)
    ∧ ((cancelScheduledMessage i uid st).1 = false →
        (cancelScheduledMessage i uid st).2 = st)
    ∧ ((cancelScheduledMessage i uid st).1 = true →
        statusOf (cancelScheduledMessage i uid st).2 i = some Status.cancelled
        ∧ (cancelScheduledMessage i uid (cancelScheduledMessage i uid st).2).1 = false)
    ∧ (∀ j, j ≠ i →
        findById (cancelScheduledMessage i uid st).2 j = findById st j) := by
  cases hf : findById st i with
  | none =>
    refine ⟨?_, ?_, ?_, ?_⟩
    · simp [cancelScheduledMessage, hf]
    · intro _
      simp [cancelScheduledMessage, hf]
    · intro hcontra
      simp [cancelScheduledMessage, hf] at hcontra
    · intro j _
      simp [cancelScheduledMessage, hf]
  | some r =>
    by_cases hc : r.userId = uid ∧ r.status = Status.pending
    · have hres : cancelScheduledMessage i uid st =
          (true, save st i { r with status := Status.cancelled }) := by
        simp [cancelScheduledMessage, hf, hc]
      have hfind := findById_save_self st i { r with status := Status.cancelled } r hf
      refine ⟨?_, ?_, ?_, ?_⟩
      · rw [hres]
        constructor
        · intro _
          exact ⟨r, rfl, hc.1, hc.2⟩
        · intro _
          rfl
      · intro hcontra
        rw [hres] at hcontra
        simp at hcontra
      · intro _
        rw [hres]
        constructor
        · show statusOf (save st i { r with status := Status.cancelled }) i = some Status.cancelled
          simp [statusOf, hfind]
        · show (cancelScheduledMessage i uid (save st i { r with status := Status.cancelled })).1 = false
          simp only [cancelScheduledMessage, hfind]
          rw [if_neg (by simp)]
      · intro j hj
        rw [hres]
        exact findById_save_ne st i j _ hj
    · have hres : cancelScheduledMessage i uid st = (false, st) := by
        simp only [cancelScheduledMessage, hf]
        rw [if_neg hc]
      refine ⟨?_, ?_, ?_, ?_⟩
      · rw [hres]
        constructor
        · intro hcontra
          simp at hcontra
        · rintro ⟨r', hr', h1, h2⟩
          injection hr' with he
          subst he
          exact absurd ⟨h1, h2⟩ hc
      · intro _
        rw [hres]
      · intro hcontra
        rw [hres] at hcontra
        simp at hcontra
      · intro j _
        rw [hres]

/-- C9: intake with a `scheduledFor` at or before `now` fails with the
validation error and the store is unchanged; with a strictly future
`scheduledFor` it appends a fresh `pending` record (its id not previously
in the store) and returns that id. -/
theorem intake_validation (now userId teamId channelId : Nat)
    (cn msg : String) (schedFor : Nat) (st : Store) :
    (schedFor ≤ now →
      scheduleMessage now userId teamId channelId cn msg schedFor st =
        Except.error "Scheduled time must be in the future"
      ∧ applyOp (Op.schedule now userId teamId channelId cn msg schedFor) st = st)
    ∧ (now < schedFor →
      ∃ i r, scheduleMessage now userId teamId channelId cn msg schedFor st =
          Except.ok (i, st ++ [(i, r)])
        ∧ findById st i = none ∧ r.status = Status.pending
        ∧ r.scheduledFor = schedFor ∧ r.userId = userId) := by
  constructor
  · intro h
    constructor
    · simp [scheduleMessage, h]
    · simp [applyOp, scheduleMessage, h]
  · intro h
    refine ⟨freshId st,
      { userId := userId, teamId := teamId, channelId := channelId,
        channelName := cn, message := msg, scheduledFor := schedFor,
        status := Status.pending, createdAt := now, sentAt := none,
        error := none }, ?_, findById_freshId st, rfl, rfl, rfl⟩
    unfold scheduleMessage
    rw [if_neg (Nat.not_le.mpr h)]

/-- Every view the listing returns has status `pending`, `sent` or `failed`. -/
theorem mem_listing_trio (uid : Nat) (st : Store) (v : MessageView)
    (hv : v ∈ getUserScheduledMessages uid st) :
    v.status = Status.pending ∨ v.status = Status.sent ∨
      v.status = Status.failed := by
  unfold getUserScheduledMessages at hv
  rcases List.mem_map.mp hv with ⟨p, hp, hview⟩
  have hmem := (sortByDueDesc_perm _).mem_iff.mp hp
  rw [List.mem_filter] at hmem
  obtain ⟨-, hcond⟩ := hmem
  simp only [decide_eq_true_eq] at hcond
  have hst : p.2.status = v.status := congrArg MessageView.status hview
  rw [← hst]
  exact hcond.2

/-- C10: the listing returns only `pending`, `sent` or `failed` records;
a `cancelled` record is never in the returned sequence. -/
theorem listing_excludes_cancelled (uid : Nat) (st : Store) (v : MessageView)
    (hv : v ∈ getUserScheduledMessages uid st) :
    (v.status = Status.pending ∨ v.status = Status.sent ∨
      v.status = Status.failed) ∧ v.status ≠ Status.cancelled := by
  have htrio := mem_listing_trio uid st v hv
  refine ⟨htrio, ?_⟩
  rcases htrio with h | h | h <;> simp [h]

/-- Witness for C10 at a concrete store and listed view. -/
theorem listing_excludes_cancelled_witness :
    sampleView ∈ getUserScheduledMessages 7 [(1, sampleMsg 7 50 Status.pending none)]
    ∧ ((sampleView.status = Status.pending ∨ sampleView.status = Status.sent ∨
        sampleView.status = Status.failed) ∧ sampleView.status ≠ Status.cancelled) :=
  ⟨by decide, listing_excludes_cancelled 7
    [(1, sampleMsg 7 50 Status.pending none)] sampleView (by decide)⟩

/-- A lookup that succeeds still succeeds after appending. -/
theorem findById_append_of_some (st l : Store) (i : Nat) (r : ScheduledMessage)
    (h : findById st i = some r) : findById (st ++ l) i = some r := by
  induction st with
  | nil => simp [findById] at h
  | cons p tl ih =>
    by_cases hp : p.1 = i
    · simp only [List.cons_append, findById, hp, ite_true] at h ⊢
      exact h
    · simp only [List.cons_append, findById, hp, ite_false] at h ⊢
      exact ih h

/-- Cancel keeps every non-pending record exactly as it was. -/
theorem cancel_preserves_nonpending (j uid i : Nat) (st : Store)
    (r : ScheduledMessage) (h : findById st i = some r)
    (hs : r.status ≠ Status.pending) :
    findById (cancelScheduledMessage j uid st).2 i = some r := by
  by_cases hij : i = j
  · subst hij
    have hres : cancelScheduledMessage i uid st = (false, st) := by
      simp only [cancelScheduledMessage, h]
      rw [if_neg fun hcontra => hs hcontra.2]
    rw [hres]
    exact h
  · cases hf : findById st j with
    | none =>
      unfold cancelScheduledMessage
      rw [hf]
      exact h
    | some r' =>
      by_cases hc : r'.userId = uid ∧ r'.status = Status.pending
      · have hres : cancelScheduledMessage j uid st =
            (true, save st j { r' with status := Status.cancelled }) := by
          simp [cancelScheduledMessage, hf, hc]
        rw [hres]
        show findById (save st j { r' with status := Status.cancelled }) i = some r
        rw [findById_save_ne st j i _ hij]
        exact h
      · have hres : cancelScheduledMessage j uid st = (false, st) := by
          simp only [cancelScheduledMessage, hf]
          rw [if_neg hc]
        rw [hres]
        exact h

/-- C6: status transitions are monotone — once a record's stored status is
terminal (`sent`, `failed` or `cancelled`, i.e. not `pending`), no engine
operation (intake, cancel, force-send or a whole poller tick) changes it. -/
theorem terminal_status_immutable (op : Op) (st : Store) (i : Nat) (s : Status)
    (h : statusOf st i = some s) (hs : s ≠ Status.pending) :
    statusOf (applyOp op st) i = some s := by
  unfold statusOf at h
  cases hf : findById st i with
  | none =>
    rw [hf] at h
    simp at h
  | some r =>
    rw [hf] at h
    simp only [Option.map_some', Option.some.injEq] at h
    have hrs : r.status ≠ Status.pending := by
      rw [h]
      exact hs
    cases op with
    | schedule now uid tid cid cn msg sf =>
      unfold applyOp scheduleMessage
      by_cases hle : sf ≤ now
      · simp [hle, statusOf, hf, h]
      · simp only [hle, ite_false]
        unfold statusOf
        rw [findById_append_of_some st _ i r hf]
        simp [h]
    | cancel j uid =>
      have hpre := cancel_preserves_nonpending j uid i st r hf hrs
      simp [applyOp, statusOf, hpre, h]
    | sendNow env now j =>
      have hpre := send_preserves_nonpending env now j i st r hf hrs
      simp [applyOp, statusOf, hpre, h]
    | tick env now =>
      have hpre := foldSends_preserves_nonpending env now (dueMessages now st) st i r hf hrs
      simp only [applyOp, process_fst, statusOf, hpre, Option.map_some']
      rw [h]

/-- Witness for C6: cancelling a `sent` record leaves it `sent`. -/
theorem terminal_status_immutable_witness :
    statusOf [(1, sampleMsg 7 50 Status.sent (some 60))] 1 = some Status.sent
    ∧ Status.sent ≠ Status.pending
    ∧ statusOf (applyOp (Op.cancel 1 7)
        [(1, sampleMsg 7 50 Status.sent (some 60))]) 1 = some Status.sent :=
  ⟨rfl, by decide,
    terminal_status_immutable (Op.cancel 1 7)
      [(1, sampleMsg 7 50 Status.sent (some 60))] 1 Status.sent rfl (by decide)⟩

/-- Everything in a saved store is the saved pair or was already there. -/
theorem mem_save (st : Store) (i : Nat) (r : ScheduledMessage)
    (p : Nat × ScheduledMessage) (h : p ∈ save st i r) :
    p = (i, r) ∨ p ∈ st := by
  induction st with
  | nil => simp [save] at h
  | cons q l ih =>
    by_cases hq : q.1 = i
    · simp only [save, hq, ite_true] at h
      rcases List.mem_cons.mp h with h1 | h1
      · left
        exact h1
      · right
        exact List.mem_cons_of_mem _ h1
    · simp only [save, hq, ite_false] at h
      rcases List.mem_cons.mp h with h1 | h1
      · right
        rw [h1]
        exact List.mem_cons_self _ _
      · rcases ih h1 with h2 | h2
        · left
          exact h2
        · right
          exact List.mem_cons_of_mem _ h2

/-- Everything in the store after a send was already there, or is the sent
record: terminal with `sentAt` freshly stamped. -/
theorem mem_send (env : Nat → SendOutcome) (now i : Nat) (st : Store)
    (p : Nat × ScheduledMessage)
    (h : p ∈ (sendScheduledMessage env now i st).1) :
    p ∈ st ∨ ((p.2.status = Status.sent ∨ p.2.status = Status.failed) ∧
      p.2.sentAt = some now) := by
  cases hf : findById st i with
  | none =>
    rw [send_of_none env now i st hf] at h
    left
    exact h
  | some r =>
    by_cases hp : r.status = Status.pending
    · rw [send_pending_eq env now i st r hf hp] at h
      cases ho : env i with
      | tokenThrow msg =>
        rw [ho] at h
        rcases mem_save st i _ p h with h1 | h1
        · right
          rw [h1]
          exact ⟨Or.inr rfl, rfl⟩
        · left
          exact h1
      | sendOk =>
        rw [ho] at h
        rcases mem_save st i _ p h with h1 | h1
        · right
          rw [h1]
          exact ⟨Or.inl rfl, rfl⟩
        · left
          exact h1
      | sendFalse =>
        rw [ho] at h
        rcases mem_save st i _ p h with h1 | h1
        · right
          rw [h1]
          exact ⟨Or.inr rfl, rfl⟩
        · left
          exact h1
      | sendThrow msg =>
        rw [ho] at h
        rcases mem_save st i _ p h with h1 | h1
        · right
          rw [h1]
          exact ⟨Or.inr rfl, rfl⟩
        · left
          exact h1
    · rw [send_of_nonpending env now i st r hf hp] at h
      left
      exact h


/-- A send preserves the `sentAt`/`status` coupling. -/
theorem sentAtInv_send (env : Nat → SendOutcome) (now i : Nat) (st : Store)
    (hinv : SentAtInv st) : SentAtInv (sendScheduledMessage env now i st).1 := by
  intro p hp
  rcases mem_send env now i st p hp with h | h
  · exact hinv p h
  · exact iff_of_true (by rw [h.2]; simp) h.1

/-- A fold of sends preserves the `sentAt`/`status` coupling. -/
theorem sentAtInv_foldSends (env : Nat → SendOutcome) (now : Nat)
    (ds : List (Nat × ScheduledMessage)) (st : Store) (hinv : SentAtInv st) :
    SentAtInv (ds.foldl (fun s p => (sendScheduledMessage env now p.1 s).1) st) := by
  induction ds generalizing st with
  | nil => exact hinv
  | cons p l ih => exact ih _ (sentAtInv_send env now p.1 st hinv)

/-- A cancel preserves the `sentAt`/`status` coupling. -/
theorem sentAtInv_cancel (j uid : Nat) (st : Store) (hinv : SentAtInv st) :
    SentAtInv (cancelScheduledMessage j uid st).2 := by
  cases hf : findById st j with
  | none =>
    have hres : cancelScheduledMessage j uid st = (false, st) := by
      simp [cancelScheduledMessage, hf]
    rw [hres]
    exact hinv
  | some r =>
    by_cases hc : r.userId = uid ∧ r.status = Status.pending
    · have hres : cancelScheduledMessage j uid st =
          (true, save st j { r with status := Status.cancelled }) := by
        simp [cancelScheduledMessage, hf, hc]
      rw [hres]
      intro p hp
      rcases mem_save st j _ p hp with h1 | h1
      · have hr : r.sentAt = none := by
          have hiff := hinv (j, r) (findById_mem st j r hf)
          by_contra hne
          rcases hiff.mp hne with h2 | h2 <;> rw [hc.2] at h2 <;> cases h2
        refine iff_of_false ?_ ?_
        · rw [h1]
          simp [hr]
        · rw [h1]
          simp
      · exact hinv p h1
    · have hres : cancelScheduledMessage j uid st = (false, st) := by
        simp only [cancelScheduledMessage, hf]
        rw [if_neg hc]
      rw [hres]
      exact hinv

/-- An intake preserves the `sentAt`/`status` coupling. -/
theorem sentAtInv_schedule (now uid tid cid : Nat) (cn msg : String)
    (sf : Nat) (st : Store) (hinv : SentAtInv st) :
    SentAtInv (applyOp (Op.schedule now uid tid cid cn msg sf) st) := by
  unfold applyOp scheduleMessage
  by_cases hle : sf ≤ now
  · simp only [hle, ite_true]
    exact hinv
  · simp only [hle, ite_false]
    intro p hp
    rcases List.mem_append.mp hp with h1 | h1
    · exact hinv p h1
    · have h2 := List.mem_singleton.mp h1
      refine iff_of_false ?_ ?_
      · rw [h2]
        simp
      · rw [h2]
        simp

/-- Every engine operation preserves the `sentAt`/`status` coupling. -/
theorem sentAtInv_applyOp (op : Op) (st : Store) (hinv : SentAtInv st) :
    SentAtInv (applyOp op st) := by
  cases op with
  | schedule now uid tid cid cn msg sf =>
    exact sentAtInv_schedule now uid tid cid cn msg sf st hinv
  | cancel j uid => exact sentAtInv_cancel j uid st hinv
  | sendNow env now j => exact sentAtInv_send env now j st hinv
  | tick env now =>
    show SentAtInv (processScheduledMessages env now st).1
    rw [process_fst]
    exact sentAtInv_foldSends env now (dueMessages now st) st hinv

/-- C3 (amended): after any sequence of engine operations from the empty
store, a record's `sentAt` is set if and only if its status is `sent` or
`failed` — not, as claimed, if and only if it is `sent`: a failed send
keeps the `sentAt` stamped before the attempt. -/
theorem sentAt_iff_sent_or_failed (ops : List Op) :
    SentAtInv (applyOps ops []) := by
  have hgen : ∀ st, SentAtInv st → SentAtInv (applyOps ops st) := by
    induction ops with
    | nil => exact fun st h => h
    | cons op l ih =>
      intro st h
      exact ih _ (sentAtInv_applyOp op st h)
  exact hgen [] (by intro p hp; cases hp)

/-- C3 counterexample: schedule one message and let its send fail at the
tick — the record ends `failed` with `sentAt = some 100` set, refuting
"sentAt is set iff status is `sent`". -/
theorem failed_record_has_sentAt :
    statusOf (applyOps [Op.schedule 0 7 0 3 "general" "hello" 50,
      Op.tick (fun _ => SendOutcome.sendFalse) 100] []) 1 = some Status.failed
    ∧ sentAtOf (applyOps [Op.schedule 0 7 0 3 "general" "hello" 50,
      Op.tick (fun _ => SendOutcome.sendFalse) 100] []) 1 = some 100 :=
  ⟨rfl, rfl⟩

/-- A user lookup that succeeds still finds the saved user after a save. -/
theorem findUser_saveUser_self (us : UserStore) (i : Nat) (u u0 : SlackUser)
    (h : findUser us i = some u0) : findUser (saveUser us i u) i = some u := by
  induction us with
  | nil => simp [findUser] at h
  | cons p l ih =>
    by_cases hp : p.1 = i
    · simp [findUser, saveUser, hp]
    · simp only [findUser, saveUser, hp, ite_false] at h ⊢
      exact ih h

/-- C5: `ensureValidToken` follows the specified algorithm. Clause by
clause: absent credential fails; absent or strictly-future `tokenExpiresAt`
returns the stored token with no refresh call and no store write; expired
with no refresh token fails with the credential-expired error; expired with
a refresh token whose refresh call fails propagates the error; expired with
a successful refresh returns the new access token and persists a user
carrying it (with the rotated refresh token and the recomputed expiry when
the provider issued them). -/
theorem ensureValidToken_algorithm
    (refresh : String → Except String SlackRefreshResponse)
    (now uid : Nat) (us : UserStore) :
    (findUser us uid = none →
      ensureValidToken refresh now uid us = (Except.error "User not found", us, 0))
    ∧ (∀ u, findUser us uid = some u → u.tokenExpiresAt = none →
        ensureValidToken refresh now uid us = (Except.ok u.accessToken, us, 0))
    ∧ (∀ u exp, findUser us uid = some u → u.tokenExpiresAt = some exp →
        now < exp →
        ensureValidToken refresh now uid us = (Except.ok u.accessToken, us, 0))
    ∧ (∀ u exp, findUser us uid = some u → u.tokenExpiresAt = some exp →
        exp ≤ now → u.refreshToken = none →
        ensureValidToken refresh now uid us =
          (Except.error "Token expired and no refresh token available", us, 0))
    ∧ (∀ u exp rt e, findUser us uid = some u → u.tokenExpiresAt = some exp →
        exp ≤ now → u.refreshToken = some rt → refresh rt = Except.error e →
        ensureValidToken refresh now uid us = (Except.error e, us, 1))
    ∧ (∀ u exp rt resp, findUser us uid = some u → u.tokenExpiresAt = some exp →
        exp ≤ now → u.refreshToken = some rt → refresh rt = Except.ok resp →
        ∃ u', ensureValidToken refresh now uid us =
            (Except.ok resp.access_token, saveUser us uid u', 1)
          ∧ u'.accessToken = resp.access_token
          ∧ u'.refreshToken = (match resp.refresh_token with
              | some r0 => some r0
              | none => u.refreshToken)
          ∧ u'.tokenExpiresAt = (match resp.expires_in with
              | some s => some (now + s * 1000)
              | none => u.tokenExpiresAt)
          ∧ findUser (saveUser us uid u') uid = some u') := by
  refine ⟨?_, ?_, ?_, ?_, ?_, ?_⟩
  · intro h
    simp [ensureValidToken, h]
  · intro u hu hnone
    simp [ensureValidToken, hu, hnone]
  · intro u exp hu hexp hlt
    simp [ensureValidToken, hu, hexp, Nat.not_le.mpr hlt]
  · intro u exp hu hexp hle hrt
    simp [ensureValidToken, hu, hexp, hle, hrt]
  · intro u exp rt e hu hexp hle hrt href
    simp [ensureValidToken, hu, hexp, hle, hrt, href]
  · intro u exp rt resp hu hexp hle hrt href
    obtain ⟨rta, rtr, rte⟩ := resp
    cases rtr with
    | some r0 =>
      cases rte with
      | some s =>
        refine ⟨{ u with accessToken := rta, refreshToken := some r0, tokenExpiresAt := some (now + s * 1000) }, ?_, rfl, rfl, rfl, findUser_saveUser_self us uid _ u hu⟩
        simp [ensureValidToken, hu, hexp, hle, hrt, href]
      | none =>
        refine ⟨{ u with accessToken := rta, refreshToken := some r0 }, ?_, rfl, rfl, rfl, findUser_saveUser_self us uid _ u hu⟩
        simp [ensureValidToken, hu, hexp, hle, hrt, href]
    | none =>
      cases rte with
      | some s =>
        refine ⟨{ u with accessToken := rta, tokenExpiresAt := some (now + s * 1000) }, ?_, rfl, rfl, rfl, findUser_saveUser_self us uid _ u hu⟩
        simp [ensureValidToken, hu, hexp, hle, hrt, href]
      | none =>
        refine ⟨{ u with accessToken := rta }, ?_, rfl, rfl, rfl, findUser_saveUser_self us uid _ u hu⟩
        simp [ensureValidToken, hu, hexp, hle, hrt, href]

/-- For a listed status, filtering the listing by it counts the
principal's records of that status. -/
theorem filter_status_listing (uid : Nat) (st : Store) (s : Status)
    (hs : s = Status.pending ∨ s = Status.sent ∨ s = Status.failed) :
    ((getUserScheduledMessages uid st).filter fun m => decide (m.status = s)).length
      = countUser uid s st := by
  unfold getUserScheduledMessages countUser
  rw [← List.countP_eq_length_filter,
    List.countP_map, (sortByDueDesc_perm _).countP_eq, List.countP_filter]
  refine List.countP_congr ?_
  intro p _
  simp only [Function.comp, Bool.and_eq_true, decide_eq_true_eq]
  constructor
  · rintro ⟨h1, h2, h3⟩
    exact ⟨h2, h1⟩
  · rintro ⟨h2, h1⟩
    refine ⟨h1, h2, ?_⟩
    rcases hs with h | h | h <;> rw [h] at h1
    · exact Or.inl h1
    · exact Or.inr (Or.inl h1)
    · exact Or.inr (Or.inr h1)

/-- The listing filter's count splits by status. -/
theorem countP_trio_split (uid : Nat) (st : Store) :
    (st.countP fun p => decide (p.2.userId = uid ∧
        (p.2.status = Status.pending ∨ p.2.status = Status.sent ∨
         p.2.status = Status.failed)))
      = countUser uid Status.pending st + countUser uid Status.sent st +
        countUser uid Status.failed st := by
  induction st with
  | nil => rfl
  | cons p l ih =>
    unfold countUser at ih ⊢
    simp only [List.countP_cons]
    by_cases h1 : p.2.userId = uid
    · cases hs : p.2.status <;> simp [h1, hs] at ih ⊢ <;> omega
    · simp [h1] at ih ⊢
      omega

/-- No listed view counts as cancelled. -/
theorem cancelled_count_zero (uid : Nat) (st : Store) :
    ((getUserScheduledMessages uid st).filter fun m =>
      decide (m.status = Status.cancelled)).length = 0 := by
  rw [← List.countP_eq_length_filter, List.countP_eq_zero]
  intro v hv
  rcases mem_listing_trio uid st v hv with h | h | h <;> simp [h]

/-- The listing's length is the sum of the three listed status counts. -/
theorem length_listing (uid : Nat) (st : Store) :
    (getUserScheduledMessages uid st).length =
      countUser uid Status.pending st + countUser uid Status.sent st +
      countUser uid Status.failed st := by
  unfold getUserScheduledMessages
  rw [List.length_map, (sortByDueDesc_perm _).length_eq,
    ← List.countP_eq_length_filter]
  exact countP_trio_split uid st

/-- C4 (amended): stats is a pure aggregation over the listing, which
excludes cancelled records — each of the pending/sent/failed counts equals
the number of the principal's records in that status, the cancelled count
is always 0, and total is the sum of the three listed statuses (cancelled
records are not counted). -/
theorem stats_counts_listed_only (uid : Nat) (st : Store) :
    getStats uid st =
      { total := countUser uid Status.pending st + countUser uid Status.sent st + countUser uid Status.failed st, pending := countUser uid Status.pending st, sent := countUser uid Status.sent st, failed := countUser uid Status.failed st, cancelled := 0 } := by
  simp only [getStats]
  rw [Stats.mk.injEq]
  exact ⟨length_listing uid st,
    filter_status_listing uid st Status.pending (Or.inl rfl),
    filter_status_listing uid st Status.sent (Or.inr (Or.inl rfl)),
    filter_status_listing uid st Status.failed (Or.inr (Or.inr rfl)),
    cancelled_count_zero uid st⟩

/-- C4 counterexample: on a store holding exactly 3 pending, 2 sent,
1 failed and 1 cancelled records of principal 7, stats returns
total 6 and cancelled 0 — not the claimed total 7 and cancelled 1. -/
theorem stats_example_ne_spec :
    countUser 7 Status.pending statsExampleStore = 3
    ∧ countUser 7 Status.sent statsExampleStore = 2
    ∧ countUser 7 Status.failed statsExampleStore = 1
    ∧ countUser 7 Status.cancelled statsExampleStore = 1
    ∧ getStats 7 statsExampleStore = { total := 6, pending := 3, sent := 2, failed := 1, cancelled := 0 }
    ∧ getStats 7 statsExampleStore ≠ { total := 7, pending := 3, sent := 2, failed := 1, cancelled := 1 } := by
  decide

end SlackConnect
